import Mathlib

/-!
The cryptomarketwatcher program: fetch two pages of market data, export them as CSV

A shallow embedding of `src/main.go` (`fetchMarketData`, `saveToCSV`, `main`) together
with the parts of the Go standard library those functions call (`fmt.Sprintf` with the
verbs `%d`, `%.0f`, `%.2f`, `math.Round`, the `float64 -> int` conversion, `time.Format`
for the two layouts used).

Conventions of the embedding:

* `float64` values are the finite ones, held exactly as sign, mantissa and binary
  exponent.  `encoding/json` never produces NaN or an infinity (a literal out of range is
  a decode error), and the program performs no floating-point arithmetic: every operation
  applied to a number (`math.Round`, `int(...)`, `%.Nf`) is a function of its exact value.
* an `interface{}` field holds what `encoding/json` stores into an `interface{}`:
  `nil`, `bool`, `float64`, `string`, `[]interface{}` or `map[string]interface{}`.
* the network, the clock and the file system are explicit: a `World` answers the
  successive `http.Get` calls, a `Clock` answers the successive `time.Now` calls, and the
  observable effects (requests, pauses, log lines, CSV records) are accumulated in
  explicit state.
-/

namespace CryptoMarketWatcher

/-! ## Decimal rendering of integers (`strconv` / `%d`) -/

/-- The ASCII digit for `d % 10`. -/
def digitChar (d : Nat) : Char :=
  match d % 10 with
  | 0 => '0' | 1 => '1' | 2 => '2' | 3 => '3' | 4 => '4'
  | 5 => '5' | 6 => '6' | 7 => '7' | 8 => '8' | _ => '9'

/-- Digits of `n`, most significant first, pushed in front of `acc`; `fuel` bounds the
number of digits produced. -/
def toDigitsFuel : Nat → Nat → List Char → List Char
  | 0, _, acc => acc
  | fuel + 1, n, acc =>
    if n / 10 = 0 then digitChar n :: acc
    else toDigitsFuel fuel (n / 10) (digitChar n :: acc)

/-- Decimal digits of a natural number, without sign and without leading zeros
(`0` is rendered `0`). -/
def formatNat (n : Nat) : List Char := toDigitsFuel (n + 1) n []

/-- Go `%d` applied to an `int`. -/
def fmtD (z : Int) : String :=
  if z < 0 then String.mk ('-' :: formatNat z.natAbs) else String.mk (formatNat z.natAbs)

/-- Digits of `n` left-padded with zeros to at least `width` characters. -/
def padDigits (width n : Nat) : List Char :=
  List.replicate (width - (formatNat n).length) '0' ++ formatNat n

/-! ## Finite `float64` values -/

/-- A finite `float64`: the value is `(-1)^neg * mant * 2^exp`.  The sign is kept apart
from the magnitude because IEEE 754 has a negative zero and `fmt` prints its sign. -/
structure Float64 where
  neg : Bool
  mant : Nat
  exp : Int
  deriving DecidableEq, Repr

namespace Float64

/-- The value is representable in IEEE 754 binary64 (53-bit significand, exponent range
of the normal and subnormal numbers). -/
def isBinary64 (x : Float64) : Prop :=
  x.mant < 2 ^ 53 ∧ -1074 ≤ x.exp ∧ x.exp ≤ 971

instance (x : Float64) : Decidable x.isBinary64 := by
  unfold isBinary64; infer_instance

/-- Numerator of the magnitude `|x| = num / den`. -/
def num (x : Float64) : Nat := x.mant * 2 ^ x.exp.toNat

/-- Denominator of the magnitude `|x| = num / den`; a power of two. -/
def den (x : Float64) : Nat := 2 ^ (-x.exp).toNat

/-- The exact value as a rational number. -/
def toRat (x : Float64) : ℚ :=
  (if x.neg then -1 else 1) * ((x.num : ℚ) / (x.den : ℚ))

end Float64

/-- Go `math.Round`: the nearest integer, halfway cases away from zero
(`t := Trunc(x); if Abs(x-t) >= 0.5 { return t + Copysign(1, x) }; return t`).
The sign of `x` is kept, so `Round(-0.4)` is `-0`. -/
def mathRound (x : Float64) : Float64 :=
  let t := x.num / x.den
  let f := x.num % x.den
  { neg := x.neg, mant := if x.den ≤ 2 * f then t + 1 else t, exp := 0 }

/-- Smallest `int` (64-bit). -/
def minInt64 : Int := -(2 ^ 63)

/-- Go conversion `int(x)` of a `float64` on a 64-bit platform: the fraction is discarded
(truncation towards zero).  When the truncated value is not representable the result is
implementation-dependent; the amd64 result (the "integer indefinite" value, `minInt64`)
is taken here. -/
def toInt (x : Float64) : Int :=
  let t : Int := ((x.num / x.den : Nat) : Int)
  let v : Int := if x.neg then -t else t
  if minInt64 ≤ v ∧ v < 2 ^ 63 then v else minInt64

/-- Magnitude of `x` scaled by `10^prec` and rounded to an integer, exact halves to even:
the digit string `strconv.FormatFloat(x, 'f', prec, 64)` prints. -/
def roundedScaled (prec : Nat) (x : Float64) : Nat :=
  let s := x.num * 10 ^ prec
  let q := s / x.den
  let r := s % x.den
  if x.den < 2 * r ∨ (2 * r = x.den ∧ q % 2 = 1) then q + 1 else q

/-- Go `%.<prec>f` applied to a `float64`: optional minus sign (taken from the sign bit),
integer digits, and, when `prec > 0`, a decimal point followed by exactly `prec` digits. -/
def fmtFloat (prec : Nat) (x : Float64) : String :=
  let m := roundedScaled prec x
  let sign : List Char := if x.neg then ['-'] else []
  let ip := formatNat (m / 10 ^ prec)
  let fp : List Char := if prec = 0 then [] else '.' :: padDigits prec (m % 10 ^ prec)
  String.mk (sign ++ ip ++ fp)

/-! ## Values held by an `interface{}` field -/

/-- What `encoding/json` stores into an `interface{}`: `nil` for JSON `null`, `bool`,
`float64` for every JSON number, `string`, `[]interface{}` for arrays and
`map[string]interface{}` for objects (listed in the order `fmt` prints a map: by
increasing key). -/
inductive Value where
  | null
  | bool (b : Bool)
  | number (x : Float64)
  | string (s : String)
  | array (xs : List Value)
  | object (kvs : List (String × Value))

/-- Go `%v` of a `bool`. -/
def fmtBool (b : Bool) : String := if b then "true" else "false"

/-- What `fmt` prints for a string operand under a verb `%.<prec>f`:
the bad-verb form, in which the operand is printed by `%v` under the same precision and
is therefore cut to its first `prec` characters. -/
def badVerbString (prec : Nat) (s : String) : String :=
  "%!f(string=" ++ s.take prec ++ ")"

/-- Join already formatted items with single spaces. -/
def joinSpace : List String → String
  | [] => ""
  | [s] => s
  | s :: rest => s ++ " " ++ joinSpace rest

mutual
/-- Go `printValue` under `%.<prec>f` for a value reached inside a slice or a map. -/
def fmtNested (prec : Nat) : Value → String
  | .null => "<nil>"
  | .bool b => "%!f(bool=" ++ fmtBool b ++ ")"
  | .number x => fmtFloat prec x
  | .string s => badVerbString prec s
  | .array xs => "[" ++ joinSpace (fmtNestedList prec xs) ++ "]"
  | .object kvs => "map[" ++ joinSpace (fmtNestedEntries prec kvs) ++ "]"
/-- The elements of a slice, each formatted under the verb. -/
def fmtNestedList (prec : Nat) : List Value → List String
  | [] => []
  | v :: vs => fmtNested prec v :: fmtNestedList prec vs
/-- The entries of a map, each printed `key:value` with both sides under the verb. -/
def fmtNestedEntries (prec : Nat) : List (String × Value) → List String
  | [] => []
  | (k, v) :: kvs =>
    (badVerbString prec k ++ ":" ++ fmtNested prec v) :: fmtNestedEntries prec kvs
end

/-- Go `fmt.Sprintf("%.<prec>f", v)` for an `interface{}` operand `v`.  `Sprintf` has no
failure path: an operand that is not a floating-point number is rendered in the bad-verb
form (`%!f(<nil>)` for `nil`). -/
def sprintfF (prec : Nat) : Value → String
  | .null => "%!f(<nil>)"
  | v => fmtNested prec v

/-- Go type assertion `v.(float64)`: `none` stands for the run-time panic raised when the
dynamic type of `v` is not `float64` (in particular when `v` is `nil`). -/
def assertFloat64 : Value → Option Float64
  | .number x => some x
  | _ => none

/-! ## Data model of `main.go` -/

/-- Struct for storing cryptocurrency market data. -/
structure CryptoData where
  ID : String
  Symbol : String
  Name : String
  CurrentPrice : Value
  MarketCap : Value
  MarketCapRank : Value
  TotalVolume : Value
  High24h : Value
  Low24h : Value
  PriceChange24h : Value
  PriceChangePct24h : Value
  LastUpdated : String

/-! ## Clock -/

/-- A wall-clock reading, broken into its civil fields. -/
structure Time where
  year : Nat
  month : Nat
  day : Nat
  hour : Nat
  minute : Nat
  second : Nat

/-- A decimal field of a time layout, zero-padded to `width`. -/
def Time.field (width n : Nat) : String := String.mk (padDigits width n)

/-- Go `t.Format("20060102_150405")`. -/
def Time.formatCompact (t : Time) : String :=
  Time.field 4 t.year ++ Time.field 2 t.month ++ Time.field 2 t.day ++ "_" ++
    Time.field 2 t.hour ++ Time.field 2 t.minute ++ Time.field 2 t.second

/-- Go `t.Format("2006-01-02 15:04:05")`. -/
def Time.formatStamp (t : Time) : String :=
  Time.field 4 t.year ++ "-" ++ Time.field 2 t.month ++ "-" ++ Time.field 2 t.day ++ " " ++
    Time.field 2 t.hour ++ ":" ++ Time.field 2 t.minute ++ ":" ++ Time.field 2 t.second

/-- The clock: the reading returned by the `i`-th call of `time.Now` made by `saveToCSV`
(call 0 names the file, call `i + 1` stamps the `i`-th data row). -/
abbrev Clock := Nat → Time

/-! ## `saveToCSV` -/

/-- The file system as far as `os.Create` is concerned: `none` when the file of that name
is created, `some e` when creation fails with error `e`. -/
abbrev FileSystem := String → Option String

/-- How a call ends: it returns its `error` result (`none` is Go `nil`), or a run-time
panic unwinds it. -/
inductive Outcome where
  | returned (err : Option String)
  | panicked
  deriving DecidableEq, Repr

/-- The effects and the result of one `saveToCSV` call: the file created, if any, with
the records handed to `csv.Writer.Write` in order (the deferred `Flush` and `Close` also
run when the call panics), the lines printed on standard output, and how the call ended. -/
structure Export where
  file : Option (String × List (List String))
  console : List String
  outcome : Outcome
  deriving DecidableEq, Repr

/-- The header record of `saveToCSV`. -/
def headers : List String :=
  ["Timestamp", "ID", "Symbol", "Name", "Current Price", "Market Cap", "Market Cap Rank",
   "Total Volume", "High 24h", "Low 24h", "Price Change 24h", "Price Change % 24h",
   "Last Updated"]

/-- The record built for `d` in the loop of `saveToCSV`, stamped with the clock reading
`t`; `none` when building it panics (the type assertion on `MarketCapRank`). -/
def row (t : Time) (d : CryptoData) : Option (List String) :=
  match assertFloat64 d.MarketCapRank with
  | none => none
  | some rank =>
    some [t.formatStamp,
          d.ID, d.Symbol, d.Name,
          sprintfF 2 d.CurrentPrice,
          sprintfF 0 d.MarketCap,
          fmtD (toInt (mathRound rank)),
          sprintfF 0 d.TotalVolume,
          sprintfF 2 d.High24h,
          sprintfF 2 d.Low24h,
          sprintfF 2 d.PriceChange24h,
          sprintfF 2 d.PriceChangePct24h,
          d.LastUpdated]

/-- The loop `for _, d := range data { writer.Write(...) }`: `i` data rows have been
written so far and `written` is everything handed to the writer.  Returns the records
handed to the writer and whether the loop ran to its end (`false`: it panicked). -/
def writeRows (clock : Clock) : Nat → List CryptoData → List (List String) →
    List (List String) × Bool
  | _, [], written => (written, true)
  | i, d :: ds, written =>
    match row (clock (i + 1)) d with
    | none => (written, false)
    | some r => writeRows clock (i + 1) ds (written ++ [r])

/-- The file name generated from the clock reading `t`:
`fmt.Sprintf("market_data_%s.csv", t.Format("20060102_150405"))`. -/
def csvName (t : Time) : String := "market_data_" ++ t.formatCompact ++ ".csv"

/-- Go `saveToCSV`. -/
def saveToCSV (fs : FileSystem) (clock : Clock) (data : List CryptoData) : Export :=
  let filename := csvName (clock 0)
  match fs filename with
  | some err =>
    { file := none, console := [],
      outcome := .returned (some ("error creating CSV file: " ++ err)) }
  | none =>
    match writeRows clock 0 data [headers] with
    | (written, false) =>
      { file := some (filename, written), console := [], outcome := .panicked }
    | (written, true) =>
      { file := some (filename, written),
        console := ["✅ Data saved to " ++ filename],
        outcome := .returned none }

/-! ## `fetchMarketData` -/

/-- What one `http.Get` yields: a transport error, or a response with its status code and
what `io.ReadAll` makes of its body (the bytes, or a read error). -/
inductive HttpResult where
  | transportError (err : String)
  | response (status : Nat) (body : Except String String)

/-- The world outside the process: `get i url` is the outcome of the `i`-th `http.Get`
(counted from 0) when it asks for `url`; `unmarshal` is `json.Unmarshal` into a
`[]CryptoData`. -/
structure World where
  get : Nat → String → HttpResult
  unmarshal : String → Except String (List CryptoData)

/-- Observable steps of the fetch phase. -/
inductive Event where
  | get (url : String)
  | log (msg : String)
  | sleep (seconds : Nat)
  deriving DecidableEq, Repr

/-- State of the fetch phase: number of requests issued and everything done so far. -/
structure Net where
  sent : Nat
  trace : List Event
  deriving DecidableEq, Repr

/-- The URL requested for `page`. -/
def marketsURL (page : Int) : String :=
  "https://api.coingecko.com/api/v3/coins/markets?vs_currency=usd&order=market_cap_desc&per_page=250&page="
    ++ fmtD page

/-- Log line of the rate-limit branch. -/
def rateLimitMsg : String := "⚠️ API Rate Limit Hit! Waiting before retrying..."

/-- Go `fetchMarketData`.  The Go function calls itself on HTTP 429 without any bound;
`fuel` is the number of nested calls available, and `none` means they were used up
before an attempt ended the recursion.  The result is the pair `([]CryptoData, error)`,
the empty list standing for a `nil` slice. -/
def fetchMarketData (w : World) : Nat → Int → Net →
    Option ((List CryptoData × Option String) × Net)
  | 0, _, _ => none
  | fuel + 1, page, s =>
    let url := marketsURL page
    let s1 : Net := { sent := s.sent + 1, trace := s.trace ++ [.get url] }
    match w.get s.sent url with
    | .transportError err => some (([], some err), s1)
    | .response status body =>
      if status = 429 then
        fetchMarketData w fuel page
          { s1 with trace := s1.trace ++ [.log rateLimitMsg, .sleep 15] }
      else
        match body with
        | .error err => some (([], some err), s1)
        | .ok bytes =>
          match w.unmarshal bytes with
          | .error err => some (([], some err), s1)
          | .ok data => some ((data, none), s1)

/-! ## `main` -/

/-- How the process ends. -/
inductive Exit where
  | success
  | fatal (msg : String)
  | panic
  deriving DecidableEq, Repr

/-- The loop `for page := 1; page <= 2; page++` of `main`, over the pages still to fetch:
`.error` carries the message of `log.Fatalf`, `.ok` the final `allData`. -/
def fetchPages (w : World) (fuel : Nat) : List Int → List CryptoData → Net →
    Option (Except String (List CryptoData) × Net)
  | [], allData, s => some (.ok allData, s)
  | page :: pages, allData, s =>
    match fetchMarketData w fuel page s with
    | none => none
    | some ((_, some err), s1) => some (.error ("Error fetching market data: " ++ err), s1)
    | some ((data, none), s1) =>
      fetchPages w fuel pages (allData ++ data) { s1 with trace := s1.trace ++ [.sleep 10] }

/-- One run of the program: the fetch phase, the `saveToCSV` call if it was reached (its
argument and its effects), and the exit. -/
structure Run where
  net : Net
  saved : Option (List CryptoData × Export)
  exit : Exit

/-- Go `main`; `none` when a fetch used up its `fuel`. -/
def main (w : World) (fs : FileSystem) (clock : Clock) (fuel : Nat) : Option Run :=
  match fetchPages w fuel [1, 2] [] { sent := 0, trace := [] } with
  | none => none
  | some (.error msg, s) => some { net := s, saved := none, exit := .fatal msg }
  | some (.ok allData, s) =>
    let e := saveToCSV fs clock allData
    some { net := s, saved := some (allData, e),
           exit := match e.outcome with
             | .returned none => .success
             | .returned (some err) => .fatal ("Error saving CSV: " ++ err)
             | .panicked => .panic }

/-! ## Vocabulary of the statements -/

/-- What `k` rate-limited attempts for `url` leave in the trace: each one is a request,
the log line, and a pause of 15 seconds. -/
def retries (url : String) : Nat → List Event
  | 0 => []
  | k + 1 => [.get url, .log rateLimitMsg, .sleep 15] ++ retries url k

/-- The attempt was answered with HTTP 429. -/
def HttpResult.rateLimited : HttpResult → Prop
  | .transportError _ => False
  | .response status _ => status = 429

/-- The attempt suffers a transport failure, a body-read failure, or carries a body that
does not decode as a list of market records. -/
def HttpResult.fails (w : World) : HttpResult → Prop
  | .transportError _ => True
  | .response _ (.error _) => True
  | .response _ (.ok bytes) => ∃ err, w.unmarshal bytes = .error err

/-- The world that answers request number `i` with `r` and every other request as `w`. -/
def World.answering (w : World) (i : Nat) (r : HttpResult) : World :=
  { w with get := fun j url => if j = i then r else w.get j url }

/-- The URLs requested, in order. -/
def requests : List Event → List String
  | [] => []
  | .get url :: t => url :: requests t
  | _ :: t => requests t

/-- The pauses taken, in order, in seconds. -/
def pauses : List Event → List Nat
  | [] => []
  | .sleep n :: t => n :: pauses t
  | _ :: t => pauses t

/-- The export was aborted by a panic while building the record of input record number
`i`: the file holds the header and the `i` rows written before. -/
def Export.failsAt (e : Export) (i : Nat) : Prop :=
  e.outcome = .panicked ∧ ∃ name rows, e.file = some (name, headers :: rows) ∧ rows.length = i

/-- The export of `data` fails at the first record whose rank is `null`: `data` splits
at that record, no earlier record has a `null` rank, and the call panics there with the
header and the rows of the earlier records in the file. -/
def FailsAtFirstNullRank (fs : FileSystem) (clock : Clock) (data : List CryptoData) : Prop :=
  ∃ pre d post, data = pre ++ d :: post
    ∧ d.MarketCapRank = .null
    ∧ (∀ e ∈ pre, e.MarketCapRank ≠ .null)
    ∧ (saveToCSV fs clock data).failsAt pre.length

/-- The export of `data` is aborted with an error: it neither returns success nor writes
a row for every record. -/
def AbortsWithError (fs : FileSystem) (clock : Clock) (data : List CryptoData) : Prop :=
  (saveToCSV fs clock data).outcome ≠ .returned none

/-- A fixed-point decimal string with exactly two digits after the decimal point:
optional minus sign, at least one integer digit, a point, two digits. -/
def IsFixed2 (s : String) : Prop :=
  ∃ sign ip d1 d2, s.data = sign ++ ip ++ ['.', d1, d2]
    ∧ (sign = [] ∨ sign = ['-'])
    ∧ ip ≠ [] ∧ (∀ c ∈ ip, c.isDigit = true)
    ∧ d1.isDigit = true ∧ d2.isDigit = true

/-- A decimal string without fractional digits: optional minus sign and at least one
digit, nothing else. -/
def IsWhole (s : String) : Prop :=
  ∃ sign ip, s.data = sign ++ ip
    ∧ (sign = [] ∨ sign = ['-'])
    ∧ ip ≠ [] ∧ (∀ c ∈ ip, c.isDigit = true)

/-- Integer `z` is nearest to `q`, an exact half being resolved away from zero. -/
def IsNearestTiesAway (q : ℚ) (z : ℤ) : Prop :=
  |(z : ℚ) - q| ≤ 1 / 2 ∧ (|(z : ℚ) - q| = 1 / 2 → |q| < |(z : ℚ)|)

/-- The number read from a string of decimal digits. -/
def digitsValue (cs : List Char) : Nat :=
  cs.foldl (fun a c => 10 * a + (c.toNat - 48)) 0

/-- String `s` is the decimal rendering of the integer `z`: a minus sign when `z` is
negative, then a non-empty string of digits that reads as `|z|`; nothing else (no decimal
point). -/
def IsDecimalOf (s : String) (z : ℤ) : Prop :=
  ∃ ds, s.data = (if z < 0 then ['-'] else []) ++ ds
    ∧ ds ≠ [] ∧ (∀ c ∈ ds, c.isDigit = true)
    ∧ digitsValue ds = z.natAbs

/-- The `float64` nearest to 7.6 (`0x401E666666666666`), slightly below 7.6. -/
def f7_6 : Float64 := ⟨false, 4278419646001971, -49⟩

/-- The `float64` nearest to 7.4 (`0x401D99999999999A`), slightly above 7.4. -/
def f7_4 : Float64 := ⟨false, 4165829655317709, -49⟩

/-- The `float64` 7.5, exactly. -/
def f7_5 : Float64 := ⟨false, 15, -1⟩

/-- The `float64` 2.5, exactly. -/
def f2_5 : Float64 := ⟨false, 5, -1⟩

/-! ## Sample inputs -/

/-- A record as the API delivers it: price 1234.5, rank 1. -/
def coinA : CryptoData :=
  { ID := "bitcoin", Symbol := "btc", Name := "Bitcoin",
    CurrentPrice := .number ⟨false, 2469, -1⟩,
    MarketCap := .number ⟨false, 1200000000000, 0⟩,
    MarketCapRank := .number ⟨false, 1, 0⟩,
    TotalVolume := .number ⟨false, 35000000000, 0⟩,
    High24h := .number ⟨false, 1250, 0⟩,
    Low24h := .number ⟨false, 1200, 0⟩,
    PriceChange24h := .number ⟨true, 3, -3⟩,
    PriceChangePct24h := .number ⟨true, 1, -3⟩,
    LastUpdated := "2025-03-09T04:05:06.000Z" }

/-- A second record, with rank 2.5. -/
def coinB : CryptoData :=
  { coinA with ID := "ethereum", Symbol := "eth", Name := "Ethereum",
               MarketCapRank := .number ⟨false, 5, -1⟩ }

/-- A record whose current price is JSON `null`. -/
def coinNoPrice : CryptoData := { coinA with CurrentPrice := .null }

/-- A record whose rank is JSON `null`. -/
def coinNoRank : CryptoData := { coinA with MarketCapRank := .null }

/-- A server that rate-limits the first request, then serves body `one`, then body `two`
to every later request; `one` decodes to `[coinA]` and `two` to `[coinB]`. -/
def sampleWorld : World :=
  { get := fun i _ =>
      if i = 0 then .response 429 (.ok "")
      else if i = 1 then .response 200 (.ok "one")
      else .response 200 (.ok "two"),
    unmarshal := fun b =>
      if b = "one" then .ok [coinA]
      else if b = "two" then .ok [coinB]
      else .error "unexpected end of JSON input" }

/-- A server that answers every request with status 500 and a body that decodes. -/
def errorStatusWorld : World :=
  { sampleWorld with get := fun _ _ => .response 500 (.ok "one") }

/-- A server whose connection is refused after one rate-limited attempt. -/
def refusingWorld : World :=
  { sampleWorld with get := fun i _ =>
      if i = 0 then .response 429 (.ok "") else .transportError "connection refused" }

/-- The CSV record of `coinA` stamped 2025-03-09 04:05:06. -/
def rowA : List String :=
  ["2025-03-09 04:05:06", "bitcoin", "btc", "Bitcoin", "1234.50", "1200000000000", "1",
   "35000000000", "1250.00", "1200.00", "-0.38", "-0.12", "2025-03-09T04:05:06.000Z"]

/-- The CSV record of `coinB` stamped 2025-03-09 04:05:06. -/
def rowB : List String :=
  ["2025-03-09 04:05:06", "ethereum", "eth", "Ethereum", "1234.50", "1200000000000", "3",
   "35000000000", "1250.00", "1200.00", "-0.38", "-0.12", "2025-03-09T04:05:06.000Z"]

/-- A file system in which every file can be created. -/
def okFS : FileSystem := fun _ => none

/-- A file system in which no file can be created. -/
def deniedFS : FileSystem := fun _ => some "permission denied"

/-- A clock stuck at 2025-03-09 04:05:06. -/
def sampleClock : Clock := fun _ => ⟨2025, 3, 9, 4, 5, 6⟩

/-! ## Sanity checks of the library model -/

/-- The sample numbers are genuine binary64 values. -/
theorem samples_are_binary64 :
    f7_6.isBinary64 ∧ f7_4.isBinary64 ∧ f7_5.isBinary64 ∧ f2_5.isBinary64
      ∧ (⟨false, 2469, -1⟩ : Float64).isBinary64 := by
  decide

/-- The verbs `%.2f` and `%.0f` on numbers: two fractional digits, halves to even, sign
from the sign bit. -/
theorem fmtFloat_samples :
    fmtFloat 2 ⟨false, 2469, -1⟩ = "1234.50"
      ∧ fmtFloat 2 ⟨false, 1, -3⟩ = "0.12"
      ∧ fmtFloat 2 ⟨true, 3, -3⟩ = "-0.38"
      ∧ fmtFloat 0 ⟨false, 5, -1⟩ = "2"
      ∧ fmtFloat 0 ⟨false, 1200000000000, 0⟩ = "1200000000000" := by
  decide

/-- The verbs `%.2f` and `%.0f` on operands that are not numbers. -/
theorem sprintfF_samples :
    sprintfF 2 .null = "%!f(<nil>)"
      ∧ sprintfF 2 (.string "abcdef") = "%!f(string=ab)"
      ∧ sprintfF 2 (.array [.null, .number ⟨false, 1, 0⟩, .bool true])
          = "[<nil> 1.00 %!f(bool=true)]"
      ∧ sprintfF 0 (.object [("k", .number ⟨false, 1, 0⟩)]) = "map[%!f(string=):1]" := by
  decide

/-- The two time layouts. -/
theorem time_format_samples :
    Time.formatCompact ⟨2025, 3, 9, 4, 5, 6⟩ = "20250309_040506"
      ∧ Time.formatStamp ⟨2025, 3, 9, 4, 5, 6⟩ = "2025-03-09 04:05:06" := by
  decide

/-! ## `fetchMarketData` -/

/-- One call of `fetchMarketData` with a nested call still available. -/
theorem fetchMarketData_succ (w : World) (fuel : Nat) (page : Int) (s : Net) :
    fetchMarketData w (fuel + 1) page s =
      match w.get s.sent (marketsURL page) with
      | .transportError err =>
        some (([], some err),
          { sent := s.sent + 1, trace := s.trace ++ [.get (marketsURL page)] })
      | .response status body =>
        if status = 429 then
          fetchMarketData w fuel page
            { sent := s.sent + 1,
              trace := s.trace ++ [.get (marketsURL page)] ++ [.log rateLimitMsg, .sleep 15] }
        else
          match body with
          | .error err =>
            some (([], some err),
              { sent := s.sent + 1, trace := s.trace ++ [.get (marketsURL page)] })
          | .ok bytes =>
            match w.unmarshal bytes with
            | .error err =>
              some (([], some err),
                { sent := s.sent + 1, trace := s.trace ++ [.get (marketsURL page)] })
            | .ok data =>
              some ((data, none),
                { sent := s.sent + 1, trace := s.trace ++ [.get (marketsURL page)] }) := by
  rfl

theorem retries_append (url : String) (k : Nat) (t : List Event) :
    t ++ [.get url, .log rateLimitMsg, .sleep 15] ++ retries url k
      = t ++ retries url (k + 1) := by
  simp [retries]

/-- Shape of every run of `fetchMarketData` whose first `k` attempts are rate-limited and
whose next attempt is not: the recursion ends at that attempt, with `k + 1` requests and
`k` pauses in the trace, and the result is the one of that single attempt. -/
theorem fetchMarketData_after_retries (w : World) (page : Int) (k : Nat) :
    ∀ (fuel : Nat) (s : Net), k < fuel →
      (∀ i, i < k → (w.get (s.sent + i) (marketsURL page)).rateLimited) →
      ¬ (w.get (s.sent + k) (marketsURL page)).rateLimited →
      fetchMarketData w fuel page s =
        some ((match w.get (s.sent + k) (marketsURL page) with
               | .transportError err => ([], some err)
               | .response _ (.error err) => ([], some err)
               | .response _ (.ok bytes) =>
                 match w.unmarshal bytes with
                 | .error err => ([], some err)
                 | .ok data => (data, none)),
              { sent := s.sent + k + 1,
                trace := s.trace ++ retries (marketsURL page) k ++ [.get (marketsURL page)] }) := by
  induction k with
  | zero =>
    intro fuel s hf _ hlast
    obtain ⟨f, rfl⟩ : ∃ f, fuel = f + 1 := ⟨fuel - 1, by omega⟩
    simp only [Nat.add_zero] at hlast ⊢
    rw [fetchMarketData_succ]
    cases hr : w.get s.sent (marketsURL page) with
    | transportError err => simp [retries]
    | response status body =>
      have hne : status ≠ 429 := by simpa [hr, HttpResult.rateLimited] using hlast
      cases body with
      | error err => simp [hne, retries]
      | ok bytes =>
        cases hu : w.unmarshal bytes <;> simp [hne, retries, hu]
  | succ k ih =>
    intro fuel s hf hlim hlast
    obtain ⟨f, rfl⟩ : ∃ f, fuel = f + 1 := ⟨fuel - 1, by omega⟩
    have h0 := hlim 0 (by omega)
    simp only [Nat.add_zero] at h0
    rw [fetchMarketData_succ]
    cases hr : w.get s.sent (marketsURL page) with
    | transportError err => simp [hr, HttpResult.rateLimited] at h0
    | response status body =>
      have hs : status = 429 := by simpa [hr, HttpResult.rateLimited] using h0
      have hstep := ih f
        { sent := s.sent + 1,
          trace := s.trace ++ [.get (marketsURL page)] ++ [.log rateLimitMsg, .sleep 15] }
        (by omega)
        (by
          intro i hi
          have := hlim (i + 1) (by omega)
          simpa [Nat.add_assoc, Nat.add_comm 1 i] using this)
        (by simpa [Nat.add_assoc, Nat.add_comm 1 k] using hlast)
      simp only [hs, if_true]
      rw [hstep]
      simp [Nat.add_assoc, Nat.add_comm 1 k, retries]

theorem requests_append (a b : List Event) : requests (a ++ b) = requests a ++ requests b := by
  induction a with
  | nil => rfl
  | cons e t ih => cases e <;> simp [requests, ih]

theorem pauses_append (a b : List Event) : pauses (a ++ b) = pauses a ++ pauses b := by
  induction a with
  | nil => rfl
  | cons e t ih => cases e <;> simp [pauses, ih]

theorem requests_retries (url : String) (k : Nat) :
    requests (retries url k) = List.replicate k url := by
  induction k with
  | zero => rfl
  | succ k ih => simp [retries, requests, ih, List.replicate_succ]

theorem pauses_retries (url : String) (k : Nat) :
    pauses (retries url k) = List.replicate k 15 := by
  induction k with
  | zero => rfl
  | succ k ih => simp [retries, pauses, ih, List.replicate_succ]

/-- C4: when the first `k` requests for page `n` are answered with HTTP 429 and the next
one with a 200 response whose body decodes to `L`, `fetchMarketData n` returns `L` with no
error (whenever at least `k + 1` nested calls are available, for every `k`).  It has then
issued exactly `k + 1` requests, all for the URL of page `n`, and has paused `k` times,
15 seconds each, once after every rate-limited response and before the next request. -/
theorem fetchMarketData_retries_until_success (w : World) (page : Int) (s : Net) (k : Nat)
    (bytes : String) (L : List CryptoData)
    (h429 : ∀ i, i < k → ∃ body, w.get (s.sent + i) (marketsURL page) = .response 429 body)
    (h200 : w.get (s.sent + k) (marketsURL page) = .response 200 (.ok bytes))
    (hdec : w.unmarshal bytes = .ok L) (fuel : Nat) (hfuel : k < fuel) :
    fetchMarketData w fuel page s =
        some ((L, none),
              { sent := s.sent + (k + 1),
                trace := s.trace ++ retries (marketsURL page) k ++ [.get (marketsURL page)] })
      ∧ requests (retries (marketsURL page) k ++ [.get (marketsURL page)])
          = List.replicate (k + 1) (marketsURL page)
      ∧ pauses (retries (marketsURL page) k ++ [.get (marketsURL page)])
          = List.replicate k 15 := by
  refine ⟨?_, ?_, ?_⟩
  · have h := fetchMarketData_after_retries w page k fuel s hfuel
      (by
        intro i hi
        obtain ⟨body, hb⟩ := h429 i hi
        simp [hb, HttpResult.rateLimited])
      (by simp [h200, HttpResult.rateLimited])
    rw [h, h200]
    simp [hdec, Nat.add_assoc]
  · simp [requests_append, requests_retries, requests, List.replicate_succ']
  · simp [pauses_append, pauses_retries, pauses]

/-- Witness of C4 on `sampleWorld`: one rate-limited attempt, then success. -/
theorem fetchMarketData_retries_until_success_witness :
    fetchMarketData sampleWorld 2 1 { sent := 0, trace := [] } =
        some (([coinA], none),
              { sent := 0 + (1 + 1),
                trace := [] ++ retries (marketsURL 1) 1 ++ [.get (marketsURL 1)] })
      ∧ requests (retries (marketsURL 1) 1 ++ [.get (marketsURL 1)])
          = List.replicate (1 + 1) (marketsURL 1)
      ∧ pauses (retries (marketsURL 1) 1 ++ [.get (marketsURL 1)])
          = List.replicate 1 15 :=
  fetchMarketData_retries_until_success sampleWorld 1 { sent := 0, trace := [] } 1
    "one" [coinA]
    (by
      intro i hi
      obtain rfl : i = 0 := by omega
      exact ⟨.ok "", rfl⟩)
    rfl rfl 2 (by decide)

/-- C9: let the first attempt not answered with HTTP 429 be attempt number `k`.  Then
`fetchMarketData` returns (given `k + 1` nested calls), and it returns an error exactly
when that attempt suffers a transport failure, a body-read failure or a body that does not
decode.  In that case the returned list is empty, and in every case the trace ends with
the request of that attempt: no pause follows it and no further request is issued. -/
theorem fetchMarketData_error_iff (w : World) (page : Int) (s : Net) (k fuel : Nat)
    (h429 : ∀ i, i < k → (w.get (s.sent + i) (marketsURL page)).rateLimited)
    (hend : ¬ (w.get (s.sent + k) (marketsURL page)).rateLimited) (hfuel : k < fuel) :
    ∃ data err,
      fetchMarketData w fuel page s =
        some ((data, err),
              { sent := s.sent + k + 1,
                trace := s.trace ++ retries (marketsURL page) k ++ [.get (marketsURL page)] })
      ∧ (err ≠ none ↔ (w.get (s.sent + k) (marketsURL page)).fails w)
      ∧ (err ≠ none → data = []) := by
  have h := fetchMarketData_after_retries w page k fuel s hfuel h429 hend
  rw [h]
  cases hr : w.get (s.sent + k) (marketsURL page) with
  | transportError e => exact ⟨[], some e, rfl, by simp [HttpResult.fails], fun _ => rfl⟩
  | response status body =>
    cases body with
    | error e => exact ⟨[], some e, rfl, by simp [HttpResult.fails], fun _ => rfl⟩
    | ok bytes =>
      cases hu : w.unmarshal bytes with
      | error e =>
        exact ⟨[], some e, by simp [hu], by simp [HttpResult.fails, hu], fun _ => rfl⟩
      | ok data =>
        exact ⟨data, none, by simp [hu], by simp [HttpResult.fails, hu], by simp⟩

/-- Witness of C9 on `refusingWorld`: a rate-limited attempt, then a refused connection. -/
theorem fetchMarketData_error_iff_witness :
    ∃ data err,
      fetchMarketData refusingWorld 2 1 { sent := 0, trace := [] } =
        some ((data, err),
              { sent := 0 + 1 + 1,
                trace := [] ++ retries (marketsURL 1) 1 ++ [.get (marketsURL 1)] })
      ∧ (err ≠ none ↔ (refusingWorld.get (0 + 1) (marketsURL 1)).fails refusingWorld)
      ∧ (err ≠ none → data = []) :=
  fetchMarketData_error_iff refusingWorld 1 { sent := 0, trace := [] } 1 2
    (by
      intro i hi
      obtain rfl : i = 0 := by omega
      exact (rfl : (429 : Nat) = 429))
    (by intro h; exact h)
    (by decide)

/-- C10: the status code is inspected only to detect 429.  When the request is answered
with a status other than 429, whatever it is, `fetchMarketData` returns what it returns
in the world where that request is answered with status 200 and the same body; with a
readable body it returns the decoded records and no error when the body decodes, and the
decode error (with no records) when it does not. -/
theorem fetchMarketData_ignores_other_statuses (w : World) (fuel : Nat) (page : Int)
    (s : Net) (status : Nat) (body : Except String String) (hstatus : status ≠ 429)
    (hget : w.get s.sent (marketsURL page) = .response status body) :
    fetchMarketData w (fuel + 1) page s
        = fetchMarketData (w.answering s.sent (.response 200 body)) (fuel + 1) page s
      ∧ ∀ bytes, body = .ok bytes →
          fetchMarketData w (fuel + 1) page s =
            some ((match w.unmarshal bytes with
                   | .ok data => (data, none)
                   | .error err => ([], some err)),
                  { sent := s.sent + 1, trace := s.trace ++ [.get (marketsURL page)] }) := by
  constructor
  · rw [fetchMarketData_succ, fetchMarketData_succ, hget]
    simp [World.answering, hstatus]
  · intro bytes hb
    subst hb
    rw [fetchMarketData_succ, hget]
    cases hu : w.unmarshal bytes <;> simp [hstatus, hu]

/-- Witness of C10 on `errorStatusWorld`: a 500 response with a decodable body. -/
theorem fetchMarketData_ignores_other_statuses_witness :
    fetchMarketData errorStatusWorld (0 + 1) 1 { sent := 0, trace := [] }
        = fetchMarketData (errorStatusWorld.answering 0 (.response 200 (.ok "one"))) (0 + 1) 1
            { sent := 0, trace := [] }
      ∧ ∀ bytes, (Except.ok "one" : Except String String) = .ok bytes →
          fetchMarketData errorStatusWorld (0 + 1) 1 { sent := 0, trace := [] } =
            some ((match errorStatusWorld.unmarshal bytes with
                   | .ok data => (data, none)
                   | .error err => ([], some err)),
                  { sent := 0 + 1, trace := [] ++ [.get (marketsURL 1)] }) :=
  fetchMarketData_ignores_other_statuses errorStatusWorld 0 1 { sent := 0, trace := [] }
    500 (.ok "one") (by decide) rfl

/-! ## `main` -/

/-- C1: when `fetchMarketData` returns `p1` for page 1 and then `p2` for page 2, both
without error, `main` calls `saveToCSV` with exactly `p1` followed by `p2`: the sequence
has `len(p1) + len(p2)` records, its first `len(p1)` records are those of `p1` in order
and the following `len(p2)` records are those of `p2` in order. -/
theorem main_saves_pages_in_order (w : World) (fs : FileSystem) (clock : Clock)
    (fuel : Nat) (p1 p2 : List CryptoData) (s1 s2 : Net)
    (h1 : fetchMarketData w fuel 1 { sent := 0, trace := [] } = some ((p1, none), s1))
    (h2 : fetchMarketData w fuel 2 { s1 with trace := s1.trace ++ [.sleep 10] }
            = some ((p2, none), s2)) :
    ∃ run allData,
      main w fs clock fuel = some run
      ∧ run.saved = some (allData, saveToCSV fs clock allData)
      ∧ allData = p1 ++ p2
      ∧ allData.length = p1.length + p2.length
      ∧ (∀ i, i < p1.length → allData[i]? = p1[i]?)
      ∧ (∀ j, j < p2.length → allData[p1.length + j]? = p2[j]?) := by
  have hm : main w fs clock fuel =
      some { net := { s2 with trace := s2.trace ++ [.sleep 10] },
             saved := some (p1 ++ p2, saveToCSV fs clock (p1 ++ p2)),
             exit := match (saveToCSV fs clock (p1 ++ p2)).outcome with
               | .returned none => .success
               | .returned (some err) => .fatal ("Error saving CSV: " ++ err)
               | .panicked => .panic } := by
    simp [main, fetchPages, h1, h2]
  refine ⟨_, p1 ++ p2, hm, rfl, rfl, List.length_append _ _, ?_, ?_⟩
  · intro i hi
    exact List.getElem?_append_left hi
  · intro j _
    rw [List.getElem?_append_right (by omega)]
    simp

/-- Witness of C1 on `sampleWorld`: page 1 is `[coinA]`, page 2 is `[coinB]`. -/
theorem main_saves_pages_in_order_witness :
    ∃ run allData,
      main sampleWorld okFS sampleClock 2 = some run
      ∧ run.saved = some (allData, saveToCSV okFS sampleClock allData)
      ∧ allData = [coinA] ++ [coinB]
      ∧ allData.length = [coinA].length + [coinB].length
      ∧ (∀ i, i < [coinA].length → allData[i]? = [coinA][i]?)
      ∧ (∀ j, j < [coinB].length → allData[[coinA].length + j]? = [coinB][j]?) :=
  main_saves_pages_in_order sampleWorld okFS sampleClock 2 [coinA] [coinB]
    { sent := 2, trace := retries (marketsURL 1) 1 ++ [.get (marketsURL 1)] }
    { sent := 3,
      trace := retries (marketsURL 1) 1 ++ [.get (marketsURL 1)] ++ [.sleep 10]
                 ++ [.get (marketsURL 2)] }
    rfl rfl

/-! ## `saveToCSV` -/

/-- The record built for a record whose rank is a number. -/
theorem row_of_number (t : Time) (d : CryptoData) (rank : Float64)
    (h : d.MarketCapRank = .number rank) :
    row t d = some [t.formatStamp, d.ID, d.Symbol, d.Name,
                    sprintfF 2 d.CurrentPrice, sprintfF 0 d.MarketCap,
                    fmtD (toInt (mathRound rank)), sprintfF 0 d.TotalVolume,
                    sprintfF 2 d.High24h, sprintfF 2 d.Low24h,
                    sprintfF 2 d.PriceChange24h, sprintfF 2 d.PriceChangePct24h,
                    d.LastUpdated] := by
  simp [row, assertFloat64, h]

/-- Building the record panics exactly when the type assertion on the rank does. -/
theorem row_of_not_number (t : Time) (d : CryptoData)
    (h : assertFloat64 d.MarketCapRank = none) : row t d = none := by
  simp [row, h]

/-- The loop over records whose ranks are all numbers runs to its end and hands one
record per input record to the writer, in input order. -/
theorem writeRows_numbers (clock : Clock) :
    ∀ (data : List CryptoData) (i : Nat) (written : List (List String)),
      (∀ d ∈ data, ∃ x, d.MarketCapRank = .number x) →
      ∃ rows, writeRows clock i data written = (written ++ rows, true)
        ∧ rows.length = data.length
        ∧ ∀ j d, data[j]? = some d →
            ∃ r, rows[j]? = some r ∧ row (clock (i + j + 1)) d = some r := by
  intro data
  induction data with
  | nil =>
    intro i written _
    exact ⟨[], by simp [writeRows], rfl, by simp⟩
  | cons d ds ih =>
    intro i written h
    obtain ⟨x, hx⟩ := h d (by simp)
    obtain ⟨r0, hrow⟩ : ∃ r, row (clock (i + 1)) d = some r :=
      ⟨_, row_of_number (clock (i + 1)) d x hx⟩
    obtain ⟨rows, hw, hlen, hrows⟩ :=
      ih (i + 1) (written ++ [r0]) (fun e he => h e (by simp [he]))
    refine ⟨r0 :: rows, ?_, by simp [hlen], ?_⟩
    · simp only [writeRows, hrow]
      rw [hw]
      simp
    · intro j e hj
      cases j with
      | zero =>
        simp only [List.getElem?_cons_zero, Option.some.injEq] at hj
        subst hj
        exact ⟨r0, by simp, by simpa using hrow⟩
      | succ j =>
        simp only [List.getElem?_cons_succ] at hj
        obtain ⟨r, hr, hrr⟩ := hrows j e hj
        refine ⟨r, by simpa using hr, ?_⟩
        have : i + (j + 1) + 1 = i + 1 + j + 1 := by omega
        rw [this]
        exact hrr

/-- The loop panics at the first record whose rank is not a number, after handing to the
writer the records built for the records before it. -/
theorem writeRows_panics (clock : Clock) :
    ∀ (pre : List CryptoData) (d : CryptoData) (post : List CryptoData) (i : Nat)
      (written : List (List String)),
      (∀ e ∈ pre, ∃ x, e.MarketCapRank = .number x) →
      assertFloat64 d.MarketCapRank = none →
      ∃ rows, writeRows clock i (pre ++ d :: post) written = (written ++ rows, false)
        ∧ rows.length = pre.length
        ∧ ∀ j e, pre[j]? = some e →
            ∃ r, rows[j]? = some r ∧ row (clock (i + j + 1)) e = some r := by
  intro pre
  induction pre with
  | nil =>
    intro d post i written _ hd
    exact ⟨[], by simp [writeRows, row_of_not_number _ d hd], rfl, by simp⟩
  | cons a pre ih =>
    intro d post i written h hd
    obtain ⟨x, hx⟩ := h a (by simp)
    obtain ⟨r0, hrow⟩ : ∃ r, row (clock (i + 1)) a = some r :=
      ⟨_, row_of_number (clock (i + 1)) a x hx⟩
    obtain ⟨rows, hw, hlen, hrows⟩ :=
      ih d post (i + 1) (written ++ [r0]) (fun e he => h e (by simp [he])) hd
    refine ⟨r0 :: rows, ?_, by simp [hlen], ?_⟩
    · show writeRows clock i (a :: (pre ++ d :: post)) written = _
      simp only [writeRows, hrow]
      rw [hw]
      simp
    · intro j e hj
      cases j with
      | zero =>
        simp only [List.getElem?_cons_zero, Option.some.injEq] at hj
        subst hj
        exact ⟨r0, by simp, by simpa using hrow⟩
      | succ j =>
        simp only [List.getElem?_cons_succ] at hj
        obtain ⟨r, hr, hrr⟩ := hrows j e hj
        refine ⟨r, by simpa using hr, ?_⟩
        have : i + (j + 1) + 1 = i + 1 + j + 1 := by omega
        rw [this]
        exact hrr

/-- The whole of `saveToCSV` on records whose ranks are all numbers, when the file is
created. -/
theorem saveToCSV_numbers (fs : FileSystem) (clock : Clock) (data : List CryptoData)
    (hfs : fs (csvName (clock 0)) = none)
    (hrank : ∀ d ∈ data, ∃ x, d.MarketCapRank = .number x) :
    ∃ rows,
      saveToCSV fs clock data =
        { file := some (csvName (clock 0), headers :: rows),
          console := ["✅ Data saved to " ++ csvName (clock 0)],
          outcome := .returned none }
      ∧ rows.length = data.length
      ∧ ∀ j d, data[j]? = some d →
          ∃ r, rows[j]? = some r ∧ row (clock (j + 1)) d = some r := by
  obtain ⟨rows, hw, hlen, hrows⟩ := writeRows_numbers clock data 0 [headers] hrank
  refine ⟨rows, ?_, hlen, ?_⟩
  · simp [saveToCSV, hfs, hw]
  · intro j d hj
    obtain ⟨r, hr, hrr⟩ := hrows j d hj
    exact ⟨r, hr, by simpa using hrr⟩

/-- Whatever the loop does, the records it hands to the writer are built, in order, from
an initial segment of the input. -/
theorem writeRows_rows (clock : Clock) :
    ∀ (data : List CryptoData) (i : Nat) (written : List (List String)),
      ∃ rows, (writeRows clock i data written).1 = written ++ rows
        ∧ rows.length ≤ data.length
        ∧ ∀ j r, rows[j]? = some r →
            ∃ d, data[j]? = some d ∧ row (clock (i + j + 1)) d = some r := by
  intro data
  induction data with
  | nil =>
    intro i written
    exact ⟨[], by simp [writeRows], by simp, by simp⟩
  | cons d ds ih =>
    intro i written
    cases hrow : row (clock (i + 1)) d with
    | none => exact ⟨[], by simp [writeRows, hrow], by simp, by simp⟩
    | some r0 =>
      obtain ⟨rows, hw, hlen, hrows⟩ := ih (i + 1) (written ++ [r0])
      refine ⟨r0 :: rows, ?_, by simp; omega, ?_⟩
      · simp only [writeRows, hrow]
        rw [hw]
        simp
      · intro j r hj
        cases j with
        | zero =>
          simp only [List.getElem?_cons_zero, Option.some.injEq] at hj
          subst hj
          exact ⟨d, by simp, by simpa using hrow⟩
        | succ j =>
          simp only [List.getElem?_cons_succ] at hj
          obtain ⟨e, he, hre⟩ := hrows j r hj
          refine ⟨e, by simpa using he, ?_⟩
          have : i + (j + 1) + 1 = i + 1 + j + 1 := by omega
          rw [this]
          exact hre

/-- Whatever `saveToCSV` leaves in the file is the header followed by records built, in
order, from an initial segment of the input. -/
theorem saveToCSV_file (fs : FileSystem) (clock : Clock) (data : List CryptoData)
    (name : String) (records : List (List String))
    (hfile : (saveToCSV fs clock data).file = some (name, records)) :
    fs (csvName (clock 0)) = none ∧ name = csvName (clock 0)
      ∧ ∃ rows, records = headers :: rows
        ∧ rows.length ≤ data.length
        ∧ ∀ j r, rows[j]? = some r →
            ∃ d, data[j]? = some d ∧ row (clock (j + 1)) d = some r := by
  obtain ⟨rows, hw, hlen, hrows⟩ := writeRows_rows clock data 0 [headers]
  cases hfs : fs (csvName (clock 0)) with
  | some err => simp [saveToCSV, hfs] at hfile
  | none =>
    have hrec : name = csvName (clock 0)
        ∧ records = (writeRows clock 0 data [headers]).1 := by
      cases hwr : writeRows clock 0 data [headers] with
      | mk written done =>
        cases done <;> simp [saveToCSV, hfs, hwr] at hfile <;>
          exact ⟨hfile.1.symm, hfile.2.symm⟩
    refine ⟨rfl, hrec.1, rows, ?_, hlen, ?_⟩
    · rw [hrec.2, hw]; rfl
    · intro j r hj
      obtain ⟨d, hd, hr⟩ := hrows j r hj
      exact ⟨d, hd, by simpa using hr⟩

/-- A record is built only for a record whose rank is a number, and then it is this. -/
theorem row_eq_some (t : Time) (d : CryptoData) (r : List String) (h : row t d = some r) :
    ∃ x, d.MarketCapRank = .number x
      ∧ r = [t.formatStamp, d.ID, d.Symbol, d.Name,
             sprintfF 2 d.CurrentPrice, sprintfF 0 d.MarketCap,
             fmtD (toInt (mathRound x)), sprintfF 0 d.TotalVolume,
             sprintfF 2 d.High24h, sprintfF 2 d.Low24h,
             sprintfF 2 d.PriceChange24h, sprintfF 2 d.PriceChangePct24h,
             d.LastUpdated] := by
  cases hv : d.MarketCapRank with
  | number x =>
    rw [row_of_number t d x hv] at h
    exact ⟨x, rfl, (Option.some.inj h).symm⟩
  | _ => simp [row, assertFloat64, hv] at h

/-- The data row of input record `i`, when the file holds one, is the record built from
that input record. -/
theorem saveToCSV_row_of_record (fs : FileSystem) (clock : Clock) (data : List CryptoData)
    (name : String) (records : List (List String))
    (hfile : (saveToCSV fs clock data).file = some (name, records))
    (i : Nat) (d : CryptoData) (r : List String)
    (hd : data[i]? = some d) (hr : records[i + 1]? = some r) :
    row (clock (i + 1)) d = some r := by
  obtain ⟨-, -, rows, hrec, -, hrows⟩ := saveToCSV_file fs clock data name records hfile
  subst hrec
  simp only [List.getElem?_cons_succ] at hr
  obtain ⟨e, he, hre⟩ := hrows i r hr
  rw [hd] at he
  rw [Option.some.inj he]
  exact hre

/-- C2: for `N` records whose ranks are numbers, when the file is created, `saveToCSV`
hands exactly `N + 1` records to the CSV writer: first the header with the 13 labels in
the fixed order, then `N` data rows; it returns no error. -/
theorem saveToCSV_writes_header_then_rows (fs : FileSystem) (clock : Clock)
    (data : List CryptoData) (hfs : fs (csvName (clock 0)) = none)
    (hrank : ∀ d ∈ data, ∃ x, d.MarketCapRank = .number x) :
    ∃ rows,
      (saveToCSV fs clock data).file =
        some (csvName (clock 0),
              ["Timestamp", "ID", "Symbol", "Name", "Current Price", "Market Cap",
               "Market Cap Rank", "Total Volume", "High 24h", "Low 24h", "Price Change 24h",
               "Price Change % 24h", "Last Updated"] :: rows)
      ∧ rows.length = data.length
      ∧ (headers :: rows).length = data.length + 1
      ∧ headers.length = 13
      ∧ (saveToCSV fs clock data).outcome = .returned none := by
  obtain ⟨rows, hs, hlen, _⟩ := saveToCSV_numbers fs clock data hfs hrank
  exact ⟨rows, by rw [hs]; rfl, hlen, by simp [hlen], rfl, by rw [hs]⟩

/-- Witness of C2: two records, three CSV records. -/
theorem saveToCSV_writes_header_then_rows_witness :
    ∃ rows,
      (saveToCSV okFS sampleClock [coinA, coinB]).file =
        some (csvName (sampleClock 0),
              ["Timestamp", "ID", "Symbol", "Name", "Current Price", "Market Cap",
               "Market Cap Rank", "Total Volume", "High 24h", "Low 24h", "Price Change 24h",
               "Price Change % 24h", "Last Updated"] :: rows)
      ∧ rows.length = [coinA, coinB].length
      ∧ (headers :: rows).length = [coinA, coinB].length + 1
      ∧ headers.length = 13
      ∧ (saveToCSV okFS sampleClock [coinA, coinB]).outcome = .returned none :=
  saveToCSV_writes_header_then_rows okFS sampleClock [coinA, coinB] rfl
    (by
      intro d hd
      simp only [List.mem_cons, List.mem_singleton, List.not_mem_nil, or_false] at hd
      rcases hd with rfl | rfl
      · exact ⟨_, rfl⟩
      · exact ⟨_, rfl⟩)

/-- C3: for records whose ranks are all numbers, the file written by `saveToCSV` holds,
after the header, one data row per input record in input order: the `i`-th data row is
the record built for the `i`-th input record, it has exactly 13 fields, with the record's
`ID`, `Symbol` and `Name` in columns 2, 3 and 4 and its `LastUpdated` in column 13, each
unmodified. -/
theorem saveToCSV_rows_follow_input (fs : FileSystem) (clock : Clock)
    (data : List CryptoData)
    (hrank : ∀ d ∈ data, ∃ x, d.MarketCapRank = .number x)
    (name : String) (records : List (List String))
    (hfile : (saveToCSV fs clock data).file = some (name, records)) :
    ∃ rows,
      records = headers :: rows
      ∧ rows.length = data.length
      ∧ ∀ (i : Nat) (d : CryptoData), data[i]? = some d →
          ∃ r, rows[i]? = some r
            ∧ row (clock (i + 1)) d = some r
            ∧ r.length = 13
            ∧ r[1]? = some d.ID ∧ r[2]? = some d.Symbol ∧ r[3]? = some d.Name
            ∧ r[12]? = some d.LastUpdated := by
  obtain ⟨hfs, -, -⟩ := saveToCSV_file fs clock data name records hfile
  obtain ⟨rows, hs, hlen, hrows⟩ := saveToCSV_numbers fs clock data hfs hrank
  rw [hs] at hfile
  have hrec : headers :: rows = records := (Prod.mk.inj (Option.some.inj hfile)).2
  refine ⟨rows, hrec.symm, hlen, ?_⟩
  intro i d hi
  obtain ⟨r, hr, hrr⟩ := hrows i d hi
  obtain ⟨x, hx⟩ := hrank d (List.getElem?_mem hi)
  have hrow := row_of_number (clock (i + 1)) d x hx
  rw [hrow] at hrr
  have hrr' := Option.some.inj hrr
  subst hrr'
  exact ⟨_, hr, hrow, rfl, rfl, rfl, rfl, rfl⟩

/-- Witness of C3 on two records. -/
theorem saveToCSV_rows_follow_input_witness :
    ∃ rows,
      [headers, rowA, rowB] = headers :: rows
      ∧ rows.length = [coinA, coinB].length
      ∧ ∀ (i : Nat) (d : CryptoData), [coinA, coinB][i]? = some d →
          ∃ r, rows[i]? = some r
            ∧ row (sampleClock (i + 1)) d = some r
            ∧ r.length = 13
            ∧ r[1]? = some d.ID ∧ r[2]? = some d.Symbol ∧ r[3]? = some d.Name
            ∧ r[12]? = some d.LastUpdated :=
  saveToCSV_rows_follow_input okFS sampleClock [coinA, coinB]
    (by
      intro d hd
      simp only [List.mem_cons, List.mem_singleton, List.not_mem_nil, or_false] at hd
      rcases hd with rfl | rfl
      · exact ⟨_, rfl⟩
      · exact ⟨_, rfl⟩)
    "market_data_20250309_040506.csv" [headers, rowA, rowB] (by decide)

/-- A list with a record whose rank is not a number splits at the first such record. -/
theorem exists_first_not_number :
    ∀ (data : List CryptoData), (∃ d ∈ data, assertFloat64 d.MarketCapRank = none) →
      ∃ pre d post, data = pre ++ d :: post
        ∧ (∀ e ∈ pre, ∃ x, e.MarketCapRank = .number x)
        ∧ assertFloat64 d.MarketCapRank = none := by
  intro data
  induction data with
  | nil => rintro ⟨d, hd, _⟩; simp at hd
  | cons a as ih =>
    rintro ⟨d, hd, hnone⟩
    cases ha : assertFloat64 a.MarketCapRank with
    | none => exact ⟨[], a, as, rfl, by simp, ha⟩
    | some x =>
      have hax : a.MarketCapRank = .number x := by
        cases hv : a.MarketCapRank <;> simp [hv, assertFloat64] at ha
        simp [ha]
      have hmem : d ∈ as := by
        rcases List.mem_cons.mp hd with rfl | h
        · rw [ha] at hnone; cases hnone
        · exact h
      obtain ⟨pre, e, post, hsplit, hpre, he⟩ := ih ⟨d, hmem, hnone⟩
      refine ⟨a :: pre, e, post, by simp [hsplit], ?_, he⟩
      intro b hb
      rcases List.mem_cons.mp hb with rfl | h
      · exact ⟨x, hax⟩
      · exact hpre b h

/-- C5: a record list (ranks being numbers or `null`, as the data model has them) that
contains a record whose rank is `null` is never exported successfully: `saveToCSV` never
returns the success result.  When the file cannot be created it returns the creation
error and looks at no record.  When the file is created, the export fails at the first
record whose rank is `null`: the type assertion on that rank panics, there is no fallback,
and the file is left with the header and exactly the rows built from the records before
that one, in order. -/
theorem saveToCSV_null_rank_aborts (fs : FileSystem) (clock : Clock)
    (data : List CryptoData)
    (hdom : ∀ d ∈ data, d.MarketCapRank = .null ∨ ∃ x, d.MarketCapRank = .number x)
    (hnull : ∃ d ∈ data, d.MarketCapRank = .null) :
    (saveToCSV fs clock data).outcome ≠ .returned none
      ∧ match fs (csvName (clock 0)) with
        | some err =>
          saveToCSV fs clock data =
            { file := none, console := [],
              outcome := .returned (some ("error creating CSV file: " ++ err)) }
        | none =>
          ∃ pre d post rows, data = pre ++ d :: post
            ∧ d.MarketCapRank = .null
            ∧ (∀ e ∈ pre, e.MarketCapRank ≠ .null)
            ∧ assertFloat64 d.MarketCapRank = none
            ∧ saveToCSV fs clock data =
                { file := some (csvName (clock 0), headers :: rows),
                  console := [], outcome := .panicked }
            ∧ rows.length = pre.length
            ∧ (∀ (j : Nat) (e : CryptoData), pre[j]? = some e →
                ∃ r, rows[j]? = some r ∧ row (clock (j + 1)) e = some r)
            ∧ FailsAtFirstNullRank fs clock data := by
  obtain ⟨n, hn, hnn⟩ := hnull
  obtain ⟨pre, d, post, hsplit, hpre, hd⟩ :=
    exists_first_not_number data ⟨n, hn, by simp [hnn, assertFloat64]⟩
  have hdnull : d.MarketCapRank = .null := by
    rcases hdom d (by simp [hsplit]) with h | ⟨x, hx⟩
    · exact h
    · simp [hx, assertFloat64] at hd
  have hprenn : ∀ e ∈ pre, e.MarketCapRank ≠ .null := by
    intro e he h
    obtain ⟨x, hx⟩ := hpre e he
    rw [hx] at h
    cases h
  obtain ⟨rows, hw, hlen, hrows⟩ := writeRows_panics clock pre d post 0 [headers] hpre hd
  cases hfs : fs (csvName (clock 0)) with
  | some err =>
    have hsave : saveToCSV fs clock data =
        { file := none, console := [],
          outcome := .returned (some ("error creating CSV file: " ++ err)) } := by
      simp [saveToCSV, hfs]
    exact ⟨by rw [hsave]; simp, hsave⟩
  | none =>
    have hsave : saveToCSV fs clock data =
        { file := some (csvName (clock 0), headers :: rows),
          console := [], outcome := .panicked } := by
      simp [saveToCSV, hfs, hsplit, hw]
    have hfails : (saveToCSV fs clock data).failsAt pre.length := by
      rw [hsave]
      exact ⟨rfl, _, rows, rfl, hlen⟩
    refine ⟨by rw [hsave]; simp, pre, d, post, rows, hsplit, hdnull, hprenn, hd, hsave,
      hlen, ?_, pre, d, post, hsplit, hdnull, hprenn, hfails⟩
    intro j e hj
    obtain ⟨r, hr, hrr⟩ := hrows j e hj
    exact ⟨r, hr, by simpa using hrr⟩

/-- Witness of C5: a record with a numeric rank, then one with a `null` rank; the file is
created, the first row is written and the call panics at the second record. -/
theorem saveToCSV_null_rank_aborts_witness :
    (saveToCSV okFS sampleClock [coinA, coinNoRank]).outcome ≠ .returned none
      ∧ ∃ pre d post rows, [coinA, coinNoRank] = pre ++ d :: post
          ∧ d.MarketCapRank = .null
          ∧ (∀ e ∈ pre, e.MarketCapRank ≠ .null)
          ∧ assertFloat64 d.MarketCapRank = none
          ∧ saveToCSV okFS sampleClock [coinA, coinNoRank] =
              { file := some (csvName (sampleClock 0), headers :: rows),
                console := [], outcome := .panicked }
          ∧ rows.length = pre.length
          ∧ (∀ (j : Nat) (e : CryptoData), pre[j]? = some e →
              ∃ r, rows[j]? = some r ∧ row (sampleClock (j + 1)) e = some r)
          ∧ FailsAtFirstNullRank okFS sampleClock [coinA, coinNoRank] :=
  saveToCSV_null_rank_aborts okFS sampleClock [coinA, coinNoRank]
    (by
      intro d hd
      simp only [List.mem_cons, List.mem_singleton, List.not_mem_nil, or_false] at hd
      rcases hd with rfl | rfl
      · exact Or.inr ⟨_, rfl⟩
      · exact Or.inl rfl)
    ⟨coinNoRank, by simp, rfl⟩

/-- When the file cannot be created, `saveToCSV` returns the creation error, creates
nothing and prints nothing, whatever the records are. -/
theorem saveToCSV_create_error_sample :
    saveToCSV deniedFS sampleClock [coinA, coinNoRank] =
      { file := none, console := [],
        outcome := .returned (some "error creating CSV file: permission denied") } := by
  decide

/-- C6, as the code has it: `fmt.Sprintf` has no failure path.  For records whose ranks
are numbers, when the file is created, `saveToCSV` returns success and writes one data
row per record; a field among current price, market cap, total volume, 24h high, 24h low,
24h price change and 24h percentage change that is `null` yields the cell `%!f(<nil>)`. -/
theorem saveToCSV_null_metric_is_rendered (fs : FileSystem) (clock : Clock)
    (data : List CryptoData) (hfs : fs (csvName (clock 0)) = none)
    (hrank : ∀ d ∈ data, ∃ x, d.MarketCapRank = .number x) :
    (saveToCSV fs clock data).outcome = .returned none
      ∧ ∃ rows,
          (saveToCSV fs clock data).file = some (csvName (clock 0), headers :: rows)
          ∧ rows.length = data.length
          ∧ ∀ (i : Nat) (d : CryptoData), data[i]? = some d →
              ∃ r, rows[i]? = some r
                ∧ (d.CurrentPrice = .null → r[4]? = some "%!f(<nil>)")
                ∧ (d.MarketCap = .null → r[5]? = some "%!f(<nil>)")
                ∧ (d.TotalVolume = .null → r[7]? = some "%!f(<nil>)")
                ∧ (d.High24h = .null → r[8]? = some "%!f(<nil>)")
                ∧ (d.Low24h = .null → r[9]? = some "%!f(<nil>)")
                ∧ (d.PriceChange24h = .null → r[10]? = some "%!f(<nil>)")
                ∧ (d.PriceChangePct24h = .null → r[11]? = some "%!f(<nil>)") := by
  obtain ⟨rows, hs, hlen, hrows⟩ := saveToCSV_numbers fs clock data hfs hrank
  refine ⟨by rw [hs], rows, by rw [hs], hlen, ?_⟩
  intro i d hi
  obtain ⟨r, hr, hrr⟩ := hrows i d hi
  obtain ⟨x, hx⟩ := hrank d (List.getElem?_mem hi)
  rw [row_of_number (clock (i + 1)) d x hx] at hrr
  have hrr' := Option.some.inj hrr
  subst hrr'
  refine ⟨_, hr, ?_, ?_, ?_, ?_, ?_, ?_, ?_⟩ <;> intro h <;> simp [h, sprintfF]

/-- Witness of C6 (as the code has it): a record without a price. -/
theorem saveToCSV_null_metric_is_rendered_witness :
    (saveToCSV okFS sampleClock [coinNoPrice]).outcome = .returned none
      ∧ ∃ rows,
          (saveToCSV okFS sampleClock [coinNoPrice]).file
            = some (csvName (sampleClock 0), headers :: rows)
          ∧ rows.length = [coinNoPrice].length
          ∧ ∀ (i : Nat) (d : CryptoData), [coinNoPrice][i]? = some d →
              ∃ r, rows[i]? = some r
                ∧ (d.CurrentPrice = .null → r[4]? = some "%!f(<nil>)")
                ∧ (d.MarketCap = .null → r[5]? = some "%!f(<nil>)")
                ∧ (d.TotalVolume = .null → r[7]? = some "%!f(<nil>)")
                ∧ (d.High24h = .null → r[8]? = some "%!f(<nil>)")
                ∧ (d.Low24h = .null → r[9]? = some "%!f(<nil>)")
                ∧ (d.PriceChange24h = .null → r[10]? = some "%!f(<nil>)")
                ∧ (d.PriceChangePct24h = .null → r[11]? = some "%!f(<nil>)") :=
  saveToCSV_null_metric_is_rendered okFS sampleClock [coinNoPrice] rfl
    (by
      intro d hd
      obtain rfl : d = coinNoPrice := by simpa using hd
      exact ⟨_, rfl⟩)

/-- C6 as stated fails on `[coinNoPrice]`, a record whose current price is `null`: the
export is not aborted, the record gets a data row whose price cell is `%!f(<nil>)`, and
`saveToCSV` returns success. -/
theorem saveToCSV_null_price_succeeds :
    coinNoPrice.CurrentPrice = .null
      ∧ saveToCSV okFS sampleClock [coinNoPrice] =
          { file := some ("market_data_20250309_040506.csv",
              [headers,
               ["2025-03-09 04:05:06", "bitcoin", "btc", "Bitcoin", "%!f(<nil>)",
                "1200000000000", "1", "35000000000", "1250.00", "1200.00", "-0.38", "-0.12",
                "2025-03-09T04:05:06.000Z"]]),
            console := ["✅ Data saved to market_data_20250309_040506.csv"],
            outcome := .returned none }
      ∧ ¬ AbortsWithError okFS sampleClock [coinNoPrice] := by
  refine ⟨rfl, by decide, ?_⟩
  intro h
  exact h (by decide)

/-! ## Number formatting -/

theorem digitChar_isDigit (d : Nat) : (digitChar d).isDigit = true := by
  unfold digitChar
  split <;> decide

theorem toDigitsFuel_isDigit :
    ∀ (fuel n : Nat) (acc : List Char), (∀ c ∈ acc, c.isDigit = true) →
      ∀ c ∈ toDigitsFuel fuel n acc, c.isDigit = true := by
  intro fuel
  induction fuel with
  | zero => intro n acc h; simpa [toDigitsFuel] using h
  | succ fuel ih =>
    intro n acc h
    have hacc : ∀ c ∈ digitChar n :: acc, c.isDigit = true := by
      intro c hc
      rcases List.mem_cons.mp hc with rfl | hc
      · exact digitChar_isDigit n
      · exact h c hc
    unfold toDigitsFuel
    split
    · exact hacc
    · exact ih _ _ hacc

theorem toDigitsFuel_length_pos :
    ∀ (fuel n : Nat) (acc : List Char), 0 < (toDigitsFuel (fuel + 1) n acc).length := by
  intro fuel
  induction fuel with
  | zero => intro n acc; unfold toDigitsFuel; split <;> simp [toDigitsFuel]
  | succ fuel ih =>
    intro n acc
    unfold toDigitsFuel
    split
    · simp
    · exact ih _ _

theorem formatNat_isDigit (n : Nat) : ∀ c ∈ formatNat n, c.isDigit = true :=
  toDigitsFuel_isDigit (n + 1) n [] (by simp)

theorem formatNat_ne_nil (n : Nat) : formatNat n ≠ [] := by
  intro h
  have := toDigitsFuel_length_pos n n []
  unfold formatNat at h
  rw [h] at this
  simp at this

/-- Two-digit fields: a number below 100 padded to width 2 is exactly two digits. -/
theorem padDigits_two (k : Nat) (hk : k < 100) :
    ∃ d1 d2, padDigits 2 k = [d1, d2] ∧ d1.isDigit = true ∧ d2.isDigit = true := by
  have hlen : (padDigits 2 k).length = 2 := by
    interval_cases k <;> rfl
  have hdig : ∀ c ∈ padDigits 2 k, c.isDigit = true := by
    intro c hc
    unfold padDigits at hc
    rcases List.mem_append.mp hc with h | h
    · rw [List.eq_of_mem_replicate h]; decide
    · exact formatNat_isDigit k c h
  match hp : padDigits 2 k, hlen with
  | [d1, d2], _ =>
    exact ⟨d1, d2, rfl, hdig d1 (by simp [hp]), hdig d2 (by simp [hp])⟩

/-- Verb `%.2f` applied to a number gives a fixed-point string with exactly two fractional digits. -/
theorem fmtFloat_two_isFixed2 (x : Float64) : IsFixed2 (fmtFloat 2 x) := by
  obtain ⟨d1, d2, hp, h1, h2⟩ := padDigits_two (roundedScaled 2 x % 10 ^ 2)
    (Nat.mod_lt _ (by norm_num))
  refine ⟨if x.neg then ['-'] else [], formatNat (roundedScaled 2 x / 10 ^ 2), d1, d2,
    ?_, ?_, formatNat_ne_nil _, formatNat_isDigit _, h1, h2⟩
  · have hp' : padDigits 2 (roundedScaled 2 x % 100) = [d1, d2] := by simpa using hp
    simp [fmtFloat, hp']
  · cases x.neg <;> simp

/-- Verb `%.0f` applied to a number gives a digit string without a decimal point. -/
theorem fmtFloat_zero_isWhole (x : Float64) : IsWhole (fmtFloat 0 x) := by
  refine ⟨if x.neg then ['-'] else [], formatNat (roundedScaled 0 x / 10 ^ 0),
    ?_, ?_, formatNat_ne_nil _, formatNat_isDigit _⟩
  · simp [fmtFloat]
  · cases x.neg <;> simp

/-- A string without fractional digits contains no decimal point. -/
theorem isWhole_no_point {s : String} (h : IsWhole s) : '.' ∉ s.data := by
  obtain ⟨sign, ip, hs, hsign, -, hip⟩ := h
  rw [hs]
  intro hmem
  rcases List.mem_append.mp hmem with hm | hm
  · rcases hsign with rfl | rfl
    · simp at hm
    · simp at hm
  · have := hip _ hm
    revert this
    decide

theorem sprintfF_number (prec : Nat) (x : Float64) :
    sprintfF prec (.number x) = fmtFloat prec x := by
  simp [sprintfF, fmtNested]

/-- C8: in the data row exported for a record, every one of the cells Current Price,
High 24h, Low 24h, Price Change 24h and Price Change % 24h (columns 5, 9, 10, 11, 12)
whose field is a number is a fixed-point string with exactly two digits after the point,
and each of the cells Market Cap and Total Volume (columns 6 and 8) whose field is a
number is a digit string with no fractional digits and no decimal point; the price 1234.5
is exported as `1234.50`. -/
theorem saveToCSV_fixed_precision (fs : FileSystem) (clock : Clock)
    (data : List CryptoData) (name : String) (records : List (List String))
    (hfile : (saveToCSV fs clock data).file = some (name, records))
    (i : Nat) (d : CryptoData) (r : List String)
    (hd : data[i]? = some d) (hr : records[i + 1]? = some r) :
    (∀ x, d.CurrentPrice = .number x → ∃ f, r[4]? = some f ∧ IsFixed2 f)
      ∧ (∀ x, d.High24h = .number x → ∃ f, r[8]? = some f ∧ IsFixed2 f)
      ∧ (∀ x, d.Low24h = .number x → ∃ f, r[9]? = some f ∧ IsFixed2 f)
      ∧ (∀ x, d.PriceChange24h = .number x → ∃ f, r[10]? = some f ∧ IsFixed2 f)
      ∧ (∀ x, d.PriceChangePct24h = .number x → ∃ f, r[11]? = some f ∧ IsFixed2 f)
      ∧ (∀ x, d.MarketCap = .number x → ∃ f, r[5]? = some f ∧ IsWhole f ∧ '.' ∉ f.data)
      ∧ (∀ x, d.TotalVolume = .number x → ∃ f, r[7]? = some f ∧ IsWhole f ∧ '.' ∉ f.data)
      ∧ (d.CurrentPrice = .number ⟨false, 2469, -1⟩ → r[4]? = some "1234.50") := by
  have hrow := saveToCSV_row_of_record fs clock data name records hfile i d r hd hr
  obtain ⟨rank, -, rfl⟩ := row_eq_some _ d r hrow
  refine ⟨?_, ?_, ?_, ?_, ?_, ?_, ?_, ?_⟩
  · intro x hx
    exact ⟨fmtFloat 2 x, by simp [hx, sprintfF_number], fmtFloat_two_isFixed2 x⟩
  · intro x hx
    exact ⟨fmtFloat 2 x, by simp [hx, sprintfF_number], fmtFloat_two_isFixed2 x⟩
  · intro x hx
    exact ⟨fmtFloat 2 x, by simp [hx, sprintfF_number], fmtFloat_two_isFixed2 x⟩
  · intro x hx
    exact ⟨fmtFloat 2 x, by simp [hx, sprintfF_number], fmtFloat_two_isFixed2 x⟩
  · intro x hx
    exact ⟨fmtFloat 2 x, by simp [hx, sprintfF_number], fmtFloat_two_isFixed2 x⟩
  · intro x hx
    exact ⟨fmtFloat 0 x, by simp [hx, sprintfF_number], fmtFloat_zero_isWhole x,
      isWhole_no_point (fmtFloat_zero_isWhole x)⟩
  · intro x hx
    exact ⟨fmtFloat 0 x, by simp [hx, sprintfF_number], fmtFloat_zero_isWhole x,
      isWhole_no_point (fmtFloat_zero_isWhole x)⟩
  · intro h
    have e : sprintfF 2 d.CurrentPrice = "1234.50" := by
      rw [h]
      decide
    simp [e]

/-- Witness of C8 on `coinA`, whose price is 1234.5. -/
theorem saveToCSV_fixed_precision_witness :
    (∀ x, coinA.CurrentPrice = .number x → ∃ f, rowA[4]? = some f ∧ IsFixed2 f)
      ∧ (∀ x, coinA.High24h = .number x → ∃ f, rowA[8]? = some f ∧ IsFixed2 f)
      ∧ (∀ x, coinA.Low24h = .number x → ∃ f, rowA[9]? = some f ∧ IsFixed2 f)
      ∧ (∀ x, coinA.PriceChange24h = .number x → ∃ f, rowA[10]? = some f ∧ IsFixed2 f)
      ∧ (∀ x, coinA.PriceChangePct24h = .number x → ∃ f, rowA[11]? = some f ∧ IsFixed2 f)
      ∧ (∀ x, coinA.MarketCap = .number x → ∃ f, rowA[5]? = some f ∧ IsWhole f ∧ '.' ∉ f.data)
      ∧ (∀ x, coinA.TotalVolume = .number x →
          ∃ f, rowA[7]? = some f ∧ IsWhole f ∧ '.' ∉ f.data)
      ∧ (coinA.CurrentPrice = .number ⟨false, 2469, -1⟩ → rowA[4]? = some "1234.50") :=
  saveToCSV_fixed_precision okFS sampleClock [coinA] "market_data_20250309_040506.csv"
    [headers, rowA] (by decide) 0 coinA rowA rfl rfl

/-! ## Rounding of the rank -/

theorem float64_den_pos (x : Float64) : 0 < x.den := by
  unfold Float64.den
  positivity

/-- Rounding the magnitude `n / d`: the quotient, plus one when the remainder is at least
half of `d`, is within one half of `n / d`, and on an exact half it is the larger
neighbour. -/
theorem round_magnitude (n d : Nat) (hd : 0 < d) :
    |(((if d ≤ 2 * (n % d) then n / d + 1 else n / d : Nat) : ℚ)) - (n : ℚ) / d| ≤ 1 / 2
      ∧ (|(((if d ≤ 2 * (n % d) then n / d + 1 else n / d : Nat) : ℚ)) - (n : ℚ) / d| = 1 / 2 →
          (n : ℚ) / d < ((if d ≤ 2 * (n % d) then n / d + 1 else n / d : Nat) : ℚ)) := by
  have hdq : (0 : ℚ) < d := by exact_mod_cast hd
  have hn : (n : ℚ) = d * (n / d : Nat) + (n % d : Nat) := by
    exact_mod_cast (Nat.div_add_mod n d).symm
  have hf : ((n % d : Nat) : ℚ) < d := by exact_mod_cast Nat.mod_lt n hd
  have hf0 : (0 : ℚ) ≤ ((n % d : Nat) : ℚ) := by positivity
  have hq : (n : ℚ) / d = (n / d : Nat) + ((n % d : Nat) : ℚ) / d := by
    field_simp
    linarith
  have hfd1 : ((n % d : Nat) : ℚ) / d < 1 := by
    rw [div_lt_one hdq]; exact hf
  have hfd0 : (0 : ℚ) ≤ ((n % d : Nat) : ℚ) / d := by positivity
  by_cases h : d ≤ 2 * (n % d)
  · have hhalf : (1 : ℚ) / 2 ≤ ((n % d : Nat) : ℚ) / d := by
      rw [le_div_iff₀ hdq]
      have : (d : ℚ) ≤ 2 * ((n % d : Nat) : ℚ) := by exact_mod_cast h
      linarith
    simp only [h, if_true, Nat.cast_add, Nat.cast_one]
    rw [hq]
    have e : ((n / d : Nat) : ℚ) + 1 - (((n / d : Nat) : ℚ) + ((n % d : Nat) : ℚ) / d)
        = 1 - ((n % d : Nat) : ℚ) / d := by ring
    rw [e, abs_of_nonneg (by linarith)]
    exact ⟨by linarith, fun _ => by linarith⟩
  · have hhalf : ((n % d : Nat) : ℚ) / d < 1 / 2 := by
      rw [div_lt_iff₀ hdq]
      have : 2 * ((n % d : Nat) : ℚ) < (d : ℚ) := by exact_mod_cast (not_le.mp h)
      linarith
    simp only [h, if_false]
    rw [hq]
    have e : ((n / d : Nat) : ℚ) - (((n / d : Nat) : ℚ) + ((n % d : Nat) : ℚ) / d)
        = -(((n % d : Nat) : ℚ) / d) := by ring
    rw [e, abs_neg, abs_of_nonneg hfd0]
    exact ⟨by linarith, fun h' => by linarith⟩

theorem digitChar_value (n : Nat) : (digitChar n).toNat - 48 = n % 10 := by
  have key : ∀ k, k < 10 → (digitChar k).toNat - 48 = k := by decide
  have e : digitChar (n % 10) = digitChar n := by simp [digitChar]
  rw [← e]
  exact key (n % 10) (Nat.mod_lt n (by norm_num))

theorem toDigitsFuel_append :
    ∀ (fuel n : Nat) (acc : List Char),
      toDigitsFuel fuel n acc = toDigitsFuel fuel n [] ++ acc := by
  intro fuel
  induction fuel with
  | zero => intro n acc; simp [toDigitsFuel]
  | succ fuel ih =>
    intro n acc
    unfold toDigitsFuel
    split
    · simp
    · rw [ih (n / 10) (digitChar n :: acc), ih (n / 10) [digitChar n]]
      simp

theorem digitsValue_append_singleton (cs : List Char) (c : Char) :
    digitsValue (cs ++ [c]) = 10 * digitsValue cs + (c.toNat - 48) := by
  simp [digitsValue, List.foldl_append]

theorem digitsValue_toDigitsFuel :
    ∀ (fuel n : Nat), n < fuel → digitsValue (toDigitsFuel fuel n []) = n := by
  intro fuel
  induction fuel with
  | zero => intro n h; omega
  | succ fuel ih =>
    intro n h
    unfold toDigitsFuel
    split
    · rename_i h0
      have : n % 10 = n := by omega
      simp [digitsValue, digitChar_value, this]
    · rename_i h0
      rw [toDigitsFuel_append, digitsValue_append_singleton, ih (n / 10) (by omega),
        digitChar_value]
      omega

/-- Reading back the digits of `n` gives `n`. -/
theorem digitsValue_formatNat (n : Nat) : digitsValue (formatNat n) = n :=
  digitsValue_toDigitsFuel (n + 1) n (by omega)

/-- Verb `%d` prints the decimal rendering of its operand. -/
theorem fmtD_isDecimalOf (z : Int) : IsDecimalOf (fmtD z) z := by
  refine ⟨formatNat z.natAbs, ?_, formatNat_ne_nil _, formatNat_isDigit _,
    digitsValue_formatNat _⟩
  unfold fmtD
  split <;> simp

/-- A decimal rendering of an integer contains no decimal point. -/
theorem isDecimalOf_no_point {s : String} {z : Int} (h : IsDecimalOf s z) : '.' ∉ s.data := by
  obtain ⟨ds, hs, -, hds, -⟩ := h
  rw [hs]
  intro hmem
  rcases List.mem_append.mp hmem with hm | hm
  · split at hm <;> simp at hm
  · have := hds _ hm
    revert this
    decide

/-- The value of a number in terms of its sign and the magnitude `num / den`. -/
theorem float64_abs_toRat (x : Float64) : |x.toRat| = (x.num : ℚ) / x.den := by
  have h : (0 : ℚ) ≤ (x.num : ℚ) / x.den := by positivity
  unfold Float64.toRat
  cases x.neg <;> simp [abs_of_nonneg h]

/-- The conversion `int(math.Round(x))` yields the integer nearest to `x`, halves away from zero, whenever
`x` lies within the range of `int`. -/
theorem toInt_mathRound_nearest (x : Float64)
    (hlo : (minInt64 : ℚ) ≤ x.toRat) (hhi : x.toRat ≤ 2 ^ 63 - 1) :
    IsNearestTiesAway x.toRat (toInt (mathRound x)) := by
  obtain ⟨hle, htie⟩ := round_magnitude x.num x.den (float64_den_pos x)
  set m : Nat := if x.den ≤ 2 * (x.num % x.den) then x.num / x.den + 1 else x.num / x.den
    with hm
  have hq0 : (0 : ℚ) ≤ (x.num : ℚ) / x.den := by positivity
  have hmin : (minInt64 : ℚ) = -(2 ^ 63) := by simp [minInt64]; norm_num
  have hle' := abs_le.mp hle
  have hv : toInt (mathRound x) = if x.neg then -(m : Int) else (m : Int) := by
    have hrange : minInt64 ≤ (if x.neg then -(m : Int) else (m : Int))
        ∧ (if x.neg then -(m : Int) else (m : Int)) < 2 ^ 63 := by
      cases hneg : x.neg
      · have h1 : x.toRat = (x.num : ℚ) / x.den := by simp [Float64.toRat, hneg]
        rw [h1] at hhi
        have h2 : (m : ℚ) < 2 ^ 63 := by linarith [hle'.2]
        have h3 : (m : Int) < 2 ^ 63 := by exact_mod_cast h2
        simp only [Bool.false_eq_true, if_false]
        exact ⟨by simp only [minInt64]; omega, h3⟩
      · have h1 : x.toRat = -((x.num : ℚ) / x.den) := by simp [Float64.toRat, hneg]
        rw [h1, hmin] at hlo
        have h2 : (m : ℚ) < 2 ^ 63 + 1 := by linarith [hle'.2]
        have h3 : (m : Int) < 2 ^ 63 + 1 := by exact_mod_cast h2
        simp only [if_true]
        exact ⟨by simp only [minInt64]; omega, by omega⟩
    have e : toInt (mathRound x) =
        if minInt64 ≤ (if x.neg then -(m : Int) else (m : Int))
            ∧ (if x.neg then -(m : Int) else (m : Int)) < 2 ^ 63
        then (if x.neg then -(m : Int) else (m : Int)) else minInt64 := by
      simp [toInt, mathRound, Float64.num, Float64.den, hm]
    rw [e, if_pos hrange]
  rw [hv]
  unfold IsNearestTiesAway
  cases hneg : x.neg
  · have h1 : x.toRat = (x.num : ℚ) / x.den := by simp [Float64.toRat, hneg]
    simp only [Bool.false_eq_true, if_false, Int.cast_natCast, h1]
    refine ⟨hle, fun h => ?_⟩
    rw [abs_of_nonneg hq0, abs_of_nonneg (by positivity)]
    exact htie h
  · have h1 : x.toRat = -((x.num : ℚ) / x.den) := by simp [Float64.toRat, hneg]
    have e : (-(m : ℚ)) - -((x.num : ℚ) / x.den) = -((m : ℚ) - (x.num : ℚ) / x.den) := by ring
    simp only [if_true, Int.cast_neg, Int.cast_natCast, h1, e, abs_neg]
    refine ⟨hle, fun h => ?_⟩
    rw [abs_of_nonneg hq0, abs_of_nonneg (by positivity)]
    exact htie h

/-- The integer nearest to an integer is that integer. -/
theorem isNearestTiesAway_of_int {q : ℚ} {z k : ℤ} (h : IsNearestTiesAway q z)
    (hk : q = k) : z = k := by
  obtain ⟨hle, -⟩ := h
  rw [hk] at hle
  have h2 := abs_le.mp hle
  have h3 : ((z - k : ℤ) : ℚ) < 1 := by push_cast; linarith [h2.2]
  have h4 : (-1 : ℚ) < ((z - k : ℤ) : ℚ) := by push_cast; linarith [h2.1]
  have h5 : z - k < 1 := by exact_mod_cast h3
  have h6 : -1 < z - k := by exact_mod_cast h4
  omega

/-- C7: in the data row exported for a record whose rank is a number `x` within the range
of `int`, the Market Cap Rank cell (column 7) is the decimal rendering, without decimal
point, of the integer nearest to `x`, an exact half going away from zero; when `x` is an
integer the cell renders `x` itself.  The ranks 7.6, 7.4, 7.5 and 2.5 give `8`, `7`, `8`
and `3`. -/
theorem saveToCSV_rank_rounded (fs : FileSystem) (clock : Clock)
    (data : List CryptoData) (name : String) (records : List (List String))
    (hfile : (saveToCSV fs clock data).file = some (name, records))
    (i : Nat) (d : CryptoData) (r : List String) (x : Float64)
    (hd : data[i]? = some d) (hr : records[i + 1]? = some r)
    (hx : d.MarketCapRank = .number x)
    (hlo : (minInt64 : ℚ) ≤ x.toRat) (hhi : x.toRat ≤ 2 ^ 63 - 1) :
    ∃ f z, r[6]? = some f
      ∧ IsDecimalOf f z ∧ '.' ∉ f.data
      ∧ IsNearestTiesAway x.toRat z
      ∧ (∀ k : ℤ, x.toRat = k → IsDecimalOf f k)
      ∧ (x = f7_6 → f = "8") ∧ (x = f7_4 → f = "7")
      ∧ (x = f7_5 → f = "8") ∧ (x = f2_5 → f = "3") := by
  have hrow := saveToCSV_row_of_record fs clock data name records hfile i d r hd hr
  rw [row_of_number (clock (i + 1)) d x hx] at hrow
  have hr' := Option.some.inj hrow
  subst hr'
  have hnear := toInt_mathRound_nearest x hlo hhi
  refine ⟨fmtD (toInt (mathRound x)), toInt (mathRound x), rfl, fmtD_isDecimalOf _,
    isDecimalOf_no_point (fmtD_isDecimalOf _), hnear, ?_, ?_, ?_, ?_, ?_⟩
  · intro k hk
    rw [← isNearestTiesAway_of_int hnear hk]
    exact fmtD_isDecimalOf _
  · rintro rfl; decide
  · rintro rfl; decide
  · rintro rfl; decide
  · rintro rfl; decide

/-- Witness of C7 on `coinB`, whose rank is 2.5. -/
theorem saveToCSV_rank_rounded_witness :
    ∃ f z, rowB[6]? = some f
      ∧ IsDecimalOf f z ∧ '.' ∉ f.data
      ∧ IsNearestTiesAway f2_5.toRat z
      ∧ (∀ k : ℤ, f2_5.toRat = k → IsDecimalOf f k)
      ∧ (f2_5 = f7_6 → f = "8") ∧ (f2_5 = f7_4 → f = "7")
      ∧ (f2_5 = f7_5 → f = "8") ∧ (f2_5 = f2_5 → f = "3") :=
  saveToCSV_rank_rounded okFS sampleClock [coinB] "market_data_20250309_040506.csv"
    [headers, rowB] (by decide) 0 coinB rowB f2_5 rfl rfl rfl
    (by
      have h : f2_5.toRat = 5 / 2 := by
        simp [Float64.toRat, Float64.num, Float64.den, f2_5]
      rw [h]
      norm_num [minInt64])
    (by
      have h : f2_5.toRat = 5 / 2 := by
        simp [Float64.toRat, Float64.num, Float64.den, f2_5]
      rw [h]
      norm_num)

end CryptoMarketWatcher
